import Mathlib

/-!
Verification of the fiscal-leakage analytics pipeline.

The development shallowly embeds the pipeline's core data model and
operations over exact rationals: reconciliation records, the fiscal
impact calculation (`calculate_fiscal_impact`), the governance audit
(`run_governance_audit`) with its consecutive-breach severity
escalation, the decline-curve fitting data guard, and the Arps
exponential forecast model (over the reals, since it uses `exp`).

DataFrame columns become lists; vectorised column operations
(`np.where`, `cumsum`, masking, `enumerate`) become structural
recursion over those lists. Floating-point numbers are modelled by
exact rationals; Python's `round(x, n)` is modelled by `round_dp`
(rounding of the scaled value to the nearest integer — on a binary
float an exact decimal tie essentially never occurs, so the tie-break
direction is immaterial for the properties proved here).
-/

namespace DataAnalytic

/-! ## Generic column helpers -/

/-- Running total of a rational column, as produced by `Series.cumsum`:
entry `i` of the result is the sum of entries `0..i` of the input. -/
def cumsumAux (acc : ℚ) : List ℚ → List ℚ
  | [] => []
  | x :: xs => (acc + x) :: cumsumAux (acc + x) xs

/-- Pandas `cumsum` over a rational column. -/
def cumsum (l : List ℚ) : List ℚ := cumsumAux 0 l

/-- The consecutive-run counter loop of `run_governance_audit`
(src/business_logic.py lines 187-194): walk the breach mask keeping a
running counter that increments on `true` and resets to `0` on `false`,
recording the counter value at every position. -/
def consecutiveRunsAux (run_length : ℕ) : List Bool → List ℕ
  | [] => []
  | b :: rest =>
    (if b then run_length + 1 else 0) ::
      consecutiveRunsAux (if b then run_length + 1 else 0) rest

/-- The `consecutive_runs` column: counter started at `0`. -/
def consecutiveRuns (mask : List Bool) : List ℕ := consecutiveRunsAux 0 mask

/-- Specification-side notion of a breach-run length: the number of
`true` entries at the end of the list (the length of the maximal run of
consecutive `true`s ending at the last position). -/
def trailingTrueCount (l : List Bool) : ℕ :=
  (l.reverse.takeWhile (fun b => b)).length

/-- Python's `round(x, n)`: round `x` to `n` decimal places. -/
def round_dp (n : ℕ) (x : ℚ) : ℚ :=
  ((round (x * 10 ^ n) : ℤ) : ℚ) / 10 ^ n

/-! ## Data model -/

/-- A row of the cleaned input series handed to the core by the data
engineering layer: month identifier, total BOE, shut-in flag. -/
structure CleanedRecord where
  report_month : String
  total_boe : ℚ
  is_shut_in : Bool
deriving DecidableEq

/-- A row of the reconciliation table built by
`build_reconciliation_table` (src/analytical_engine.py). -/
structure ReconRecord where
  report_month : String
  actual_boe : ℚ
  forecast_boe : ℚ
  variance_boe : ℚ
  variance_pct : ℚ
  is_shut_in : Bool
  t_month : ℕ
deriving DecidableEq

/-- A row of the fiscal impact table produced by
`calculate_fiscal_impact` (src/business_logic.py): the reconciliation
row augmented with the exposure columns. -/
structure FiscalRecord where
  report_month : String
  actual_boe : ℚ
  forecast_boe : ℚ
  variance_boe : ℚ
  variance_pct : ℚ
  is_shut_in : Bool
  t_month : ℕ
  revenue_exposure_gbp : ℚ
  cumulative_exposure_gbp : ℚ
  price_per_barrel_gbp : ℚ
deriving DecidableEq

/-- The `GovernanceFlag` dataclass (src/business_logic.py lines 45-61).
The wall-clock `timestamp` field is omitted: it is an ambient-clock side
effect with no bearing on the audited values. -/
structure GovernanceFlag where
  flag_id : ℕ
  report_month : String
  actual_boe : ℚ
  forecast_boe : ℚ
  variance_boe : ℚ
  variance_pct : ℚ
  revenue_exposure_gbp : ℚ
  flag_reason : String
  severity : String
deriving DecidableEq

/-! ## Reconciliation builder (src/analytical_engine.py lines 168-238) -/

/-- One reconciliation row: `forecast` stands for the fitted decline
curve `t ↦ arps_exponential t qi di`, abstracted to a rational-valued
function because the embedding of the table works over exact rationals.
Variance is `actual − forecast`; `variance_pct` is the guarded
percentage `(variance / forecast) * 100` with `np.where` falling back
to `0` when the forecast is not positive. -/
def reconRecordOf (forecast : ℕ → ℚ) (t : ℕ) (c : CleanedRecord) : ReconRecord :=
  { report_month := c.report_month
    actual_boe := c.total_boe
    forecast_boe := forecast t
    variance_boe := c.total_boe - forecast t
    variance_pct :=
      if 0 < forecast t then (c.total_boe - forecast t) / forecast t * 100 else 0
    is_shut_in := c.is_shut_in
    t_month := t }

/-- Recursion over the cleaned rows carrying the reconstructed
`t_month` index (`np.arange(len(df))`). -/
def build_reconciliation_aux (forecast : ℕ → ℚ) (t : ℕ) :
    List CleanedRecord → List ReconRecord
  | [] => []
  | c :: rest => reconRecordOf forecast t c :: build_reconciliation_aux forecast (t + 1) rest

/-- `build_reconciliation_table`: one `ReconRecord` per cleaned row,
`t_month` assigned as the zero-based chronological position. -/
def build_reconciliation_table (cleaned : List CleanedRecord) (forecast : ℕ → ℚ) :
    List ReconRecord :=
  build_reconciliation_aux forecast 0 cleaned

/-! ## Fiscal impact calculator (src/business_logic.py lines 84-142) -/

/-- The `np.where(df.is_shut_in, 0.0, df.variance_boe * price)` column:
shut-in months get zero fiscal exposure, producing months get
`variance × price`. -/
def exposureOf (price_per_barrel : ℚ) (r : ReconRecord) : ℚ :=
  if r.is_shut_in then 0 else r.variance_boe * price_per_barrel

/-- Assembly of one fiscal row from its reconciliation row and the pair
of its exposure-column and cumulative-column entries. -/
def fiscalRecordOf (price_per_barrel : ℚ) (r : ReconRecord) (p : ℚ × ℚ) : FiscalRecord :=
  { report_month := r.report_month
    actual_boe := r.actual_boe
    forecast_boe := r.forecast_boe
    variance_boe := r.variance_boe
    variance_pct := r.variance_pct
    is_shut_in := r.is_shut_in
    t_month := r.t_month
    revenue_exposure_gbp := p.1
    cumulative_exposure_gbp := p.2
    price_per_barrel_gbp := price_per_barrel }

/-- `calculate_fiscal_impact`: augment the reconciliation table with the
monthly `revenue_exposure_gbp` column, its running `cumsum`, and the
price tag. The source performs no validation of `price_per_barrel`. -/
def calculate_fiscal_impact (recon : List ReconRecord) (price_per_barrel : ℚ) :
    List FiscalRecord :=
  List.zipWith (fiscalRecordOf price_per_barrel) recon
    ((recon.map (exposureOf price_per_barrel)).zip
      (cumsum (recon.map (exposureOf price_per_barrel))))

/-! ## Governance auditor (src/business_logic.py lines 145-238) -/

/-- The audit scan is restricted to non-shut-in rows
(`fiscal_df[~fiscal_df.is_shut_in]`). -/
def producingRecords (fiscal : List FiscalRecord) : List FiscalRecord :=
  fiscal.filter (fun r => !r.is_shut_in)

/-- A row breaches when `|variance_pct| > threshold_pct` (strictly). -/
def breaching (threshold_pct : ℚ) (r : FiscalRecord) : Bool :=
  decide (threshold_pct < |r.variance_pct|)

/-- The `breaching_mask` column over the producing rows. -/
def auditMask (fiscal : List FiscalRecord) (threshold_pct : ℚ) : List Bool :=
  (producingRecords fiscal).map (breaching threshold_pct)

/-- Severity classification of a breaching row from its consecutive-run
value and `abs_var` (src/business_logic.py lines 204-219). -/
def severityOf (consec : ℕ) (abs_var : ℚ) : String :=
  if 3 ≤ consec then "HIGH"
  else if 2 ≤ consec ∨ 25 < abs_var then "MEDIUM"
  else "LOW"

/-- The human-readable reason attached to a flag. The source
interpolates the numeric variance and threshold into these sentences;
the numeric interpolation is elided, keeping the branch structure and
the under/over direction qualifier of the LOW branch. -/
def flagReason (consec : ℕ) (abs_var : ℚ) (variance_boe : ℚ) : String :=
  if 3 ≤ consec then
    "SYSTEMATIC: consecutive months exceeding variance threshold. Indicates possible metering drift or unrecorded diversion."
  else if 2 ≤ consec ∨ 25 < abs_var then
    "ELEVATED: Variance exceeds variance threshold. Monitor for recurrence."
  else if variance_boe < 0 then
    "SINGLE BREACH: Field under-produced vs. technical decline forecast."
  else
    "SINGLE BREACH: Field over-produced vs. technical decline forecast."

/-- Construction of one `GovernanceFlag` from a breaching row and its
consecutive-run value: stored quantities are rounded to 1 decimal
place, percentages and exposure to 2 (src/business_logic.py 226-236). -/
def mkGovernanceFlag (flag_id : ℕ) (r : FiscalRecord) (consec : ℕ) : GovernanceFlag :=
  { flag_id := flag_id
    report_month := r.report_month
    actual_boe := round_dp 1 r.actual_boe
    forecast_boe := round_dp 1 r.forecast_boe
    variance_boe := round_dp 1 r.variance_boe
    variance_pct := round_dp 2 r.variance_pct
    revenue_exposure_gbp := round_dp 2 r.revenue_exposure_gbp
    flag_reason := flagReason consec (abs r.variance_pct) r.variance_boe
    severity := severityOf consec (abs r.variance_pct) }

/-- The rows iterated by the flag-generation loop: producing rows
paired with their `consecutive_flags` column, restricted to the
breaching ones (`audit_df[breaching_mask].iterrows()`). -/
def breachingRows (fiscal : List FiscalRecord) (threshold_pct : ℚ) :
    List (FiscalRecord × ℕ) :=
  ((producingRecords fiscal).zip (consecutiveRuns (auditMask fiscal threshold_pct))).filter
    (fun p => breaching threshold_pct p.1)

/-- `enumerate(..., start)`: assign sequential `flag_id`s over the
emitted flags. -/
def enumerateFlags (start : ℕ) : List (FiscalRecord × ℕ) → List GovernanceFlag
  | [] => []
  | p :: rest => mkGovernanceFlag start p.1 p.2 :: enumerateFlags (start + 1) rest

/-- `run_governance_audit`: one flag per breaching producing row,
`flag_id` counted from 1 over emitted flags. (The source's early return
on an empty breaching frame coincides with the general path.) The
source performs no validation of `threshold_pct`. -/
def run_governance_audit (fiscal : List FiscalRecord) (threshold_pct : ℚ) :
    List GovernanceFlag :=
  enumerateFlags 1 (breachingRows fiscal threshold_pct)

/-- The producing rows that breach the threshold, in chronological
order: the rows the audit emits flags for. -/
def breachingRecords (fiscal : List FiscalRecord) (threshold_pct : ℚ) :
    List FiscalRecord :=
  (producingRecords fiscal).filter (breaching threshold_pct)

/-- Position, among the emitted flags, of the flag generated for the
producing row at position `j`: the number of breaching rows strictly
before it. -/
def flagIndexOf (fiscal : List FiscalRecord) (threshold_pct : ℚ) (j : ℕ) : ℕ :=
  ((producingRecords fiscal).take j).countP (breaching threshold_pct)

/-- The consecutive-breach run length at producing position `j`,
counted up to and including `j`: the number of consecutive breaching
producing months ending at `j`. -/
def consecAt (fiscal : List FiscalRecord) (threshold_pct : ℚ) (j : ℕ) : ℕ :=
  trailingTrueCount ((auditMask fiscal threshold_pct).take (j + 1))

/-! ## Decline-curve fitting guard (src/analytical_engine.py lines 95-106) -/

/-- The fitting data after the producing-months filter: time indices
paired with the series values, keeping the pairs with value `> 0`
(`mask = production_series > 0; t_fit = time_index[mask];
q_fit = production_series.values[mask]`). -/
def fit_decline_curve_inputs (production_series : List ℚ) : List (ℕ × ℚ) :=
  ((List.range production_series.length).zip production_series).filter
    (fun p => decide (0 < p.2))

/-- The guard message raised by `fit_decline_curve`. -/
def insufficientDataMessage : String :=
  "Insufficient producing months for curve fitting. Need >=3 non-zero production observations."

/-- The data-sufficiency guard of `fit_decline_curve`: filter to
producing observations, fail when fewer than 3 remain, otherwise hand
the filtered data on to the nonlinear solve (the solve itself is a
numerical-library call outside the embedding; the guard decides the
error-handling behaviour under audit here). -/
def fit_decline_curve_check (production_series : List ℚ) :
    Except String (List (ℕ × ℚ)) :=
  if (fit_decline_curve_inputs production_series).length < 3 then
    Except.error insufficientDataMessage
  else Except.ok (fit_decline_curve_inputs production_series)

/-! ## Arps exponential model (src/analytical_engine.py lines 38-55) -/

/-- `arps_exponential`: `q(t) = qi * exp(-di * t)`, over the reals. -/
noncomputable def arps_exponential (t qi di : ℝ) : ℝ :=
  qi * Real.exp (-di * t)

/-! ## Concrete example records used by counterexamples and witnesses -/

/-- A producing cleaned-input row. -/
def exampleCleaned : CleanedRecord :=
  { report_month := "2023-01"
    total_boe := 1100
    is_shut_in := false }

/-- A producing reconciliation row with variance `100` BOE. -/
def exampleRecon : ReconRecord :=
  { report_month := "2023-01"
    actual_boe := 1100
    forecast_boe := 1000
    variance_boe := 100
    variance_pct := 10
    is_shut_in := false
    t_month := 0 }

/-- A producing fiscal row with zero variance. -/
def exampleFiscal : FiscalRecord :=
  { report_month := "2023-01"
    actual_boe := 1000
    forecast_boe := 1000
    variance_boe := 0
    variance_pct := 0
    is_shut_in := false
    t_month := 0
    revenue_exposure_gbp := 0
    cumulative_exposure_gbp := 0
    price_per_barrel_gbp := 145 / 2 }

/-- A producing fiscal row whose unrounded variance percentage,
`15.004`, strictly breaches a 15 percent threshold but rounds to
exactly `15` at 2 decimal places. -/
def roundingExampleRecord : FiscalRecord :=
  { report_month := "2023-06"
    actual_boe := 1000 + 15004 / 100
    forecast_boe := 1000
    variance_boe := 15004 / 100
    variance_pct := 15004 / 1000
    is_shut_in := false
    t_month := 0
    revenue_exposure_gbp := 15004 / 100 * (145 / 2)
    cumulative_exposure_gbp := 15004 / 100 * (145 / 2)
    price_per_barrel_gbp := 145 / 2 }

/-- A producing fiscal row breaching a 15 percent threshold mildly
(variance 20 percent, below the 25 percent MEDIUM magnitude gate). -/
def breachExampleRecord : FiscalRecord :=
  { report_month := "2023-02"
    actual_boe := 1200
    forecast_boe := 1000
    variance_boe := 200
    variance_pct := 20
    is_shut_in := false
    t_month := 1
    revenue_exposure_gbp := 200 * (145 / 2)
    cumulative_exposure_gbp := 200 * (145 / 2)
    price_per_barrel_gbp := 145 / 2 }

/-! ## Helper lemmas: running totals -/

theorem length_cumsumAux (l : List ℚ) (acc : ℚ) :
    (cumsumAux acc l).length = l.length := by
  induction l generalizing acc with
  | nil => rfl
  | cons x xs ih => simp [cumsumAux, ih]

theorem getElem?_cumsumAux (l : List ℚ) (acc : ℚ) (i : ℕ) (h : i < l.length) :
    (cumsumAux acc l)[i]? = some (acc + (l.take (i + 1)).sum) := by
  induction l generalizing acc i with
  | nil => simp at h
  | cons x xs ih =>
    cases i with
    | zero => simp [cumsumAux]
    | succ j =>
      have hj : j < xs.length := by simpa using h
      simp [cumsumAux, ih (acc + x) j hj, List.take_succ_cons, List.sum_cons, add_assoc]

/-! ## Helper lemmas: the consecutive-run counter -/

theorem length_consecutiveRunsAux (l : List Bool) (acc : ℕ) :
    (consecutiveRunsAux acc l).length = l.length := by
  induction l generalizing acc with
  | nil => rfl
  | cons b rest ih => simp [consecutiveRunsAux, ih]

theorem length_consecutiveRuns (mask : List Bool) :
    (consecutiveRuns mask).length = mask.length :=
  length_consecutiveRunsAux mask 0

theorem getElem?_consecutiveRunsAux_zero (l : List Bool) (acc : ℕ) :
    (consecutiveRunsAux acc l)[0]? =
      l[0]?.map (fun b => if b then acc + 1 else 0) := by
  cases l with
  | nil => rfl
  | cons b rest => simp [consecutiveRunsAux]

theorem getElem?_consecutiveRunsAux_succ (l : List Bool) (acc j : ℕ) (b : Bool) (prev : ℕ)
    (hb : l[j + 1]? = some b) (hprev : (consecutiveRunsAux acc l)[j]? = some prev) :
    (consecutiveRunsAux acc l)[j + 1]? = some (if b then prev + 1 else 0) := by
  induction l generalizing acc j with
  | nil => simp at hb
  | cons c rest ih =>
    cases j with
    | zero =>
      have hp : (if c then acc + 1 else 0) = prev := by
        simpa [consecutiveRunsAux] using hprev
      subst hp
      have hb' : rest[0]? = some b := by simpa using hb
      simp [consecutiveRunsAux, getElem?_consecutiveRunsAux_zero, hb']
    | succ j =>
      have hb' : rest[j + 1]? = some b := by simpa using hb
      have hprev' : (consecutiveRunsAux (if c then acc + 1 else 0) rest)[j]? = some prev := by
        simpa [consecutiveRunsAux] using hprev
      simpa [consecutiveRunsAux] using ih (if c then acc + 1 else 0) j hb' hprev'

/-! ## Helper lemmas: trailing-run counts -/

theorem takeWhile_append_of_all {α : Type} {p : α → Bool} (xs ys : List α)
    (h : xs.all p = true) :
    (xs ++ ys).takeWhile p = xs ++ ys.takeWhile p := by
  induction xs with
  | nil => simp
  | cons a l ih =>
    simp only [List.all_cons, Bool.and_eq_true] at h
    simp [List.takeWhile_cons, h.1, ih h.2]

theorem takeWhile_append_of_not_all {α : Type} {p : α → Bool} (xs ys : List α)
    (h : xs.all p = false) :
    (xs ++ ys).takeWhile p = xs.takeWhile p := by
  induction xs with
  | nil => simp at h
  | cons a l ih =>
    by_cases hpa : p a = true
    · simp only [List.all_cons, hpa, Bool.true_and] at h
      simp [List.takeWhile_cons, hpa, ih h]
    · have hpa' : p a = false := by simpa using hpa
      simp [List.takeWhile_cons, hpa']

theorem trailingTrueCount_all (l : List Bool) (h : l.all (fun x => x) = true) :
    trailingTrueCount l = l.length := by
  have hrev : l.reverse.all (fun x => x) = true := by simpa [List.all_reverse] using h
  have := takeWhile_append_of_all (p := fun x => x) l.reverse [] hrev
  simp only [List.append_nil, List.takeWhile_nil] at this
  simp [trailingTrueCount, this]

theorem trailingTrueCount_cons (b : Bool) (l : List Bool) :
    trailingTrueCount (b :: l) =
      if l.all (fun x => x) = true then l.length + (if b then 1 else 0)
      else trailingTrueCount l := by
  unfold trailingTrueCount
  rw [List.reverse_cons]
  by_cases h : l.all (fun x => x) = true
  · have hrev : l.reverse.all (fun x => x) = true := by simpa [List.all_reverse] using h
    rw [takeWhile_append_of_all _ _ hrev]
    cases b <;> simp [h, List.takeWhile_cons]
  · have hrev : l.reverse.all (fun x => x) = false := by
      rw [List.all_reverse]
      exact Bool.eq_false_iff.mpr h
    rw [takeWhile_append_of_not_all _ _ hrev]
    simp [h]

theorem getElem?_consecutiveRunsAux (l : List Bool) :
    ∀ (acc j : ℕ), j < l.length →
      (consecutiveRunsAux acc l)[j]? =
        some (if (l.take (j + 1)).all (fun x => x) = true then acc + (j + 1)
              else trailingTrueCount (l.take (j + 1))) := by
  induction l with
  | nil => intro acc j h; simp at h
  | cons c rest ih =>
    intro acc j h
    cases j with
    | zero =>
      cases c <;> simp [consecutiveRunsAux, trailingTrueCount]
    | succ j =>
      have hj : j < rest.length := by simpa using h
      have hstep : (consecutiveRunsAux acc (c :: rest))[j + 1]? =
          (consecutiveRunsAux (if c then acc + 1 else 0) rest)[j]? := by
        simp [consecutiveRunsAux]
      rw [hstep, ih (if c then acc + 1 else 0) j hj]
      have hlen : (rest.take (j + 1)).length = j + 1 := by
        simp only [List.length_take]
        omega
      by_cases hT : (rest.take (j + 1)).all (fun x => x) = true
      · cases c
        · simp [List.take_succ_cons, List.all_cons, hT, trailingTrueCount_cons, hlen]
        · have harith : acc + 1 + (j + 1) = acc + (j + 1 + 1) := by omega
          simp [List.take_succ_cons, List.all_cons, hT, harith]
      · cases c <;>
          simp [List.take_succ_cons, List.all_cons, hT, trailingTrueCount_cons]

theorem getElem?_consecutiveRuns (l : List Bool) (j : ℕ) (h : j < l.length) :
    (consecutiveRuns l)[j]? = some (trailingTrueCount (l.take (j + 1))) := by
  rw [consecutiveRuns, getElem?_consecutiveRunsAux l 0 j h]
  by_cases hT : (l.take (j + 1)).all (fun x => x) = true
  · have h1 : trailingTrueCount (l.take (j + 1)) = (l.take (j + 1)).length :=
      trailingTrueCount_all _ hT
    have hlen : (l.take (j + 1)).length = j + 1 := by
      simp only [List.length_take]
      omega
    simp [hT, h1, hlen]
  · simp [hT]

/-! ## Helper lemmas: filtering, zipping and enumeration -/

theorem getElem?_filter_countP {α : Type} (p : α → Bool) (l : List α) :
    ∀ (j : ℕ) (x : α), l[j]? = some x → p x = true →
      (l.filter p)[(l.take j).countP p]? = some x := by
  induction l with
  | nil => intro j x hx _; simp at hx
  | cons a rest ih =>
    intro j x hx hpx
    cases j with
    | zero =>
      have hax : a = x := by simpa using hx
      subst hax
      simp [List.filter_cons, hpx]
    | succ j =>
      have hx' : rest[j]? = some x := by simpa using hx
      by_cases hpa : p a = true
      · have := ih j x hx' hpx
        simp [List.take_succ_cons, List.countP_cons, hpa, List.filter_cons, this]
      · have hpa' : p a = false := by simpa using hpa
        have := ih j x hx' hpx
        simp [List.take_succ_cons, List.countP_cons, hpa', List.filter_cons, this]

theorem countP_take_zip_fst {α β : Type} (p : α → Bool) :
    ∀ (l : List α) (ns : List β) (j : ℕ), ns.length = l.length →
      (((l.zip ns).take j).countP fun q => p q.1) = (l.take j).countP p := by
  intro l
  induction l with
  | nil => intro ns j _; simp
  | cons a rest ih =>
    intro ns j h
    cases ns with
    | nil => simp at h
    | cons n ns' =>
      cases j with
      | zero => simp
      | succ j =>
        have h' : ns'.length = rest.length := by simpa using h
        simp [List.zip_cons_cons, List.take_succ_cons, List.countP_cons, ih ns' j h']

theorem map_fst_filter_zip {α β : Type} (p : α → Bool) :
    ∀ (l : List α) (ns : List β), ns.length = l.length →
      (((l.zip ns).filter fun q => p q.1).map Prod.fst) = l.filter p := by
  intro l
  induction l with
  | nil => intro ns _; simp
  | cons a rest ih =>
    intro ns h
    cases ns with
    | nil => simp at h
    | cons n ns' =>
      have h' : ns'.length = rest.length := by simpa using h
      by_cases hpa : p a = true
      · simp [List.zip_cons_cons, List.filter_cons, hpa, ih ns' h']
      · have hpa' : p a = false := by simpa using hpa
        simp [List.zip_cons_cons, List.filter_cons, hpa', ih ns' h']

theorem getElem?_zip_of_some {α β : Type} :
    ∀ (l : List α) (ns : List β) (i : ℕ) (a : α) (b : β),
      l[i]? = some a → ns[i]? = some b → (l.zip ns)[i]? = some (a, b) := by
  intro l
  induction l with
  | nil => intro ns i a b ha _; simp at ha
  | cons x rest ih =>
    intro ns i a b ha hb
    cases ns with
    | nil => simp at hb
    | cons y ns' =>
      cases i with
      | zero =>
        have hx : x = a := by simpa using ha
        have hy : y = b := by simpa using hb
        subst hx; subst hy
        simp [List.zip_cons_cons]
      | succ i =>
        have ha' : rest[i]? = some a := by simpa using ha
        have hb' : ns'[i]? = some b := by simpa using hb
        simpa [List.zip_cons_cons] using ih ns' i a b ha' hb'

theorem getElem?_zipWith_of_some {α β γ : Type} (f : α → β → γ) :
    ∀ (l : List α) (ns : List β) (i : ℕ) (a : α) (b : β),
      l[i]? = some a → ns[i]? = some b → (List.zipWith f l ns)[i]? = some (f a b) := by
  intro l
  induction l with
  | nil => intro ns i a b ha _; simp at ha
  | cons x rest ih =>
    intro ns i a b ha hb
    cases ns with
    | nil => simp at hb
    | cons y ns' =>
      cases i with
      | zero =>
        have hx : x = a := by simpa using ha
        have hy : y = b := by simpa using hb
        subst hx; subst hy
        simp [List.zipWith_cons_cons]
      | succ i =>
        have ha' : rest[i]? = some a := by simpa using ha
        have hb' : ns'[i]? = some b := by simpa using hb
        simpa [List.zipWith_cons_cons] using ih ns' i a b ha' hb'

theorem zipWith_fst_zip {α β γ : Type} :
    ∀ (l1 : List α) (l2 : List β) (l3 : List γ),
      l2.length = l1.length → l3.length = l1.length →
      List.zipWith (fun _ p => Prod.fst p) l1 (l2.zip l3) = l2 := by
  intro l1
  induction l1 with
  | nil =>
    intro l2 l3 h2 _
    cases l2 with
    | nil => simp
    | cons b bs => simp at h2
  | cons a rest ih =>
    intro l2 l3 h2 h3
    cases l2 with
    | nil => simp at h2
    | cons b bs =>
      cases l3 with
      | nil => simp at h3
      | cons c cs =>
        have h2' : bs.length = rest.length := by simpa using h2
        have h3' : cs.length = rest.length := by simpa using h3
        simp [List.zip_cons_cons, List.zipWith_cons_cons, ih bs cs h2' h3']

theorem length_enumerateFlags :
    ∀ (s : ℕ) (rows : List (FiscalRecord × ℕ)),
      (enumerateFlags s rows).length = rows.length := by
  intro s rows
  induction rows generalizing s with
  | nil => rfl
  | cons p rest ih => simp [enumerateFlags, ih]

theorem getElem?_enumerateFlags :
    ∀ (s : ℕ) (rows : List (FiscalRecord × ℕ)) (i : ℕ),
      (enumerateFlags s rows)[i]? =
        rows[i]?.map (fun p => mkGovernanceFlag (s + i) p.1 p.2) := by
  intro s rows
  induction rows generalizing s with
  | nil => intro i; simp [enumerateFlags]
  | cons p rest ih =>
    intro i
    cases i with
    | zero => simp [enumerateFlags]
    | succ i =>
      have harith : s + 1 + i = s + (i + 1) := by omega
      simp only [enumerateFlags, List.getElem?_cons_succ, ih (s + 1) i, harith]

/-! ## Helper lemmas: governance audit structure -/

theorem length_auditMask (fiscal : List FiscalRecord) (thr : ℚ) :
    (auditMask fiscal thr).length = (producingRecords fiscal).length := by
  simp [auditMask]

theorem length_runs_eq (fiscal : List FiscalRecord) (thr : ℚ) :
    (consecutiveRuns (auditMask fiscal thr)).length = (producingRecords fiscal).length := by
  rw [length_consecutiveRuns, length_auditMask]

theorem breachingRows_map_fst (fiscal : List FiscalRecord) (thr : ℚ) :
    (breachingRows fiscal thr).map Prod.fst = breachingRecords fiscal thr := by
  unfold breachingRows breachingRecords
  exact map_fst_filter_zip _ _ _ (length_runs_eq fiscal thr)

theorem length_flags_eq (fiscal : List FiscalRecord) (thr : ℚ) :
    (run_governance_audit fiscal thr).length = (breachingRecords fiscal thr).length := by
  rw [run_governance_audit, length_enumerateFlags, ← breachingRows_map_fst, List.length_map]

theorem getElem?_flags (fiscal : List FiscalRecord) (thr : ℚ) (i : ℕ) :
    (run_governance_audit fiscal thr)[i]? =
      ((breachingRows fiscal thr)[i]?).map (fun p => mkGovernanceFlag (1 + i) p.1 p.2) :=
  getElem?_enumerateFlags 1 (breachingRows fiscal thr) i

theorem getElem?_breachingRecords (fiscal : List FiscalRecord) (thr : ℚ) (i : ℕ) :
    (breachingRecords fiscal thr)[i]? = ((breachingRows fiscal thr)[i]?).map Prod.fst := by
  rw [← breachingRows_map_fst, List.getElem?_map]

theorem breachingRows_spec (fiscal : List FiscalRecord) (thr : ℚ) (j : ℕ) (r : FiscalRecord)
    (hj : (producingRecords fiscal)[j]? = some r) (hbr : breaching thr r = true) :
    (breachingRows fiscal thr)[flagIndexOf fiscal thr j]? =
      some (r, consecAt fiscal thr j) := by
  obtain ⟨hjlen, -⟩ := List.getElem?_eq_some.mp hj
  have hmask : j < (auditMask fiscal thr).length := by
    rw [length_auditMask]; exact hjlen
  have hruns : (consecutiveRuns (auditMask fiscal thr))[j]? =
      some (trailingTrueCount ((auditMask fiscal thr).take (j + 1))) :=
    getElem?_consecutiveRuns _ j hmask
  have hzip := getElem?_zip_of_some _ _ j r _ hj hruns
  have hfilter := getElem?_filter_countP (fun p => breaching thr p.1) _ j
    (r, trailingTrueCount ((auditMask fiscal thr).take (j + 1))) hzip hbr
  rw [countP_take_zip_fst (breaching thr) _ _ j (length_runs_eq fiscal thr)] at hfilter
  simp only [flagIndexOf, consecAt, breachingRows]
  exact hfilter

theorem producingRecords_idem (fiscal : List FiscalRecord) :
    producingRecords (producingRecords fiscal) = producingRecords fiscal := by
  simp [producingRecords, List.filter_filter]

theorem flags_drop_shut_in (fiscal : List FiscalRecord) (thr : ℚ) :
    run_governance_audit fiscal thr = run_governance_audit (producingRecords fiscal) thr := by
  unfold run_governance_audit breachingRows auditMask
  rw [producingRecords_idem]

/-! ## Helper lemmas: fiscal impact, reconciliation and fitting guard -/

theorem countP_zip_snd {α β : Type} (p : β → Bool) :
    ∀ (ns : List α) (l : List β), ns.length = l.length →
      ((ns.zip l).countP fun q => p q.2) = l.countP p := by
  intro ns
  induction ns with
  | nil =>
    intro l h
    cases l with
    | nil => simp
    | cons b bs => simp at h
  | cons n ns' ih =>
    intro l h
    cases l with
    | nil => simp at h
    | cons b bs =>
      have h' : ns'.length = bs.length := by simpa using h
      simp [List.zip_cons_cons, List.countP_cons, ih bs h']

theorem length_fit_inputs (series : List ℚ) :
    (fit_decline_curve_inputs series).length = series.countP (fun q => decide (0 < q)) := by
  rw [fit_decline_curve_inputs, ← List.countP_eq_length_filter]
  exact countP_zip_snd (fun q => decide (0 < q)) (List.range series.length) series
    (by simp)

theorem getElem?_build_reconciliation_aux (forecast : ℕ → ℚ) :
    ∀ (t i : ℕ) (l : List CleanedRecord) (c : CleanedRecord), l[i]? = some c →
      (build_reconciliation_aux forecast t l)[i]? =
        some (reconRecordOf forecast (t + i) c) := by
  intro t i l
  induction l generalizing t i with
  | nil => intro c hc; simp at hc
  | cons a rest ih =>
    intro c hc
    cases i with
    | zero =>
      have ha : a = c := by simpa using hc
      subst ha
      simp [build_reconciliation_aux]
    | succ i =>
      have hc' : rest[i]? = some c := by simpa using hc
      have harith : t + 1 + i = t + (i + 1) := by omega
      simpa [build_reconciliation_aux, harith] using ih (t + 1) i c hc'

theorem map_revenue_fiscal (recon : List ReconRecord) (price : ℚ) :
    (calculate_fiscal_impact recon price).map FiscalRecord.revenue_exposure_gbp =
      recon.map (exposureOf price) := by
  rw [calculate_fiscal_impact, List.map_zipWith]
  have hfun : (fun (r : ReconRecord) (p : ℚ × ℚ) =>
      (fiscalRecordOf price r p).revenue_exposure_gbp) =
      fun (_ : ReconRecord) (p : ℚ × ℚ) => Prod.fst p := rfl
  rw [hfun]
  exact zipWith_fst_zip recon _ _ (by simp) (by simp [cumsum, length_cumsumAux])

theorem getElem?_calculate_fiscal_impact (recon : List ReconRecord) (price : ℚ) (i : ℕ)
    (r : ReconRecord) (h : recon[i]? = some r) :
    (calculate_fiscal_impact recon price)[i]? =
      some (fiscalRecordOf price r
        (exposureOf price r,
          0 + ((recon.map (exposureOf price)).take (i + 1)).sum)) := by
  obtain ⟨hi, -⟩ := List.getElem?_eq_some.mp h
  have hexp : (recon.map (exposureOf price))[i]? = some (exposureOf price r) := by
    rw [List.getElem?_map, h]; rfl
  have hcum : (cumsum (recon.map (exposureOf price)))[i]? =
      some (0 + ((recon.map (exposureOf price)).take (i + 1)).sum) :=
    getElem?_cumsumAux _ 0 i (by simpa using hi)
  have hzip := getElem?_zip_of_some _ _ i _ _ hexp hcum
  exact getElem?_zipWith_of_some (fiscalRecordOf price) recon _ i r _ h hzip

theorem breachingRecords_of_neg (fiscal : List FiscalRecord) (thr : ℚ) (hneg : thr < 0) :
    breachingRecords fiscal thr = producingRecords fiscal := by
  rw [breachingRecords, List.filter_eq_self]
  intro r _
  have habs : (0 : ℚ) ≤ |r.variance_pct| := abs_nonneg _
  simp only [breaching, decide_eq_true_eq]
  linarith

/-! ## Claim theorems -/

/-- C1: For every breaching record of the governance audit (producing
record at position `j` of the producing-months subsequence with
`|variance_pct|` strictly above the threshold), the emitted flag's
severity is determined by that record's own consecutive-breach run
length `consecAt` (the number of consecutive breaching producing months
counted up to and including the record) and its own
`abs_var = |variance_pct|`: HIGH when `consec ≥ 3`, otherwise MEDIUM
when `consec ≥ 2` or `abs_var > 25`, otherwise LOW. -/
theorem governance_severity_classification
    (fiscal : List FiscalRecord) (thr : ℚ) (j : ℕ) (r : FiscalRecord)
    (hj : (producingRecords fiscal)[j]? = some r)
    (hbr : thr < |r.variance_pct|) :
    ((run_governance_audit fiscal thr)[flagIndexOf fiscal thr j]?).map
        GovernanceFlag.severity =
      some (if 3 ≤ consecAt fiscal thr j then "HIGH"
            else if 2 ≤ consecAt fiscal thr j ∨ 25 < |r.variance_pct| then "MEDIUM"
            else "LOW") := by
  have hbr' : breaching thr r = true := by
    simp only [breaching, decide_eq_true_eq]; exact hbr
  have hrow := breachingRows_spec fiscal thr j r hj hbr'
  rw [getElem?_flags, hrow]
  simp [mkGovernanceFlag, severityOf]

/-- Witness for C1 at a concrete input: a solitary 20 percent breach
against a 15 percent threshold. -/
theorem governance_severity_classification_witness :
    ((run_governance_audit [breachExampleRecord] 15)[flagIndexOf [breachExampleRecord] 15 0]?).map
        GovernanceFlag.severity =
      some (if 3 ≤ consecAt [breachExampleRecord] 15 0 then "HIGH"
            else if 2 ≤ consecAt [breachExampleRecord] 15 0 ∨
                25 < |breachExampleRecord.variance_pct| then "MEDIUM"
            else "LOW") :=
  governance_severity_classification [breachExampleRecord] 15 0 breachExampleRecord rfl
    (by rw [show breachExampleRecord.variance_pct = 20 from rfl, abs_of_pos] <;> norm_num)

/-- C2: The consecutive-breach counter is computed over the
producing-months-only subsequence in chronological order: shut-in
records are removed before any counting (so the audit of the fiscal
sequence coincides with the audit of its producing-months subsequence —
two breaching producing months separated only by shut-in months count
as consecutive), and over the producing-months breach mask the counter
starts at 1 or 0 according to the first record and thereafter
increments by 1 on each breaching record and resets to 0 on any
non-breaching record. -/
theorem governance_consecutive_counter (fiscal : List FiscalRecord) (thr : ℚ) :
    run_governance_audit fiscal thr = run_governance_audit (producingRecords fiscal) thr ∧
    (∀ b : Bool, (auditMask fiscal thr)[0]? = some b →
      (consecutiveRuns (auditMask fiscal thr))[0]? = some (if b then 1 else 0)) ∧
    (∀ (j : ℕ) (b : Bool) (prev : ℕ),
      (auditMask fiscal thr)[j + 1]? = some b →
      (consecutiveRuns (auditMask fiscal thr))[j]? = some prev →
      (consecutiveRuns (auditMask fiscal thr))[j + 1]? = some (if b then prev + 1 else 0)) := by
  refine ⟨flags_drop_shut_in fiscal thr, ?_, ?_⟩
  · intro b hb
    rw [consecutiveRuns, getElem?_consecutiveRunsAux_zero, hb]
    rfl
  · intro j b prev hb hprev
    exact getElem?_consecutiveRunsAux_succ _ 0 j b prev hb hprev

/-- Witness for C2 at a concrete input. -/
theorem governance_consecutive_counter_witness :
    run_governance_audit [exampleFiscal, breachExampleRecord] 15 =
      run_governance_audit (producingRecords [exampleFiscal, breachExampleRecord]) 15 :=
  (governance_consecutive_counter [exampleFiscal, breachExampleRecord] 15).1

/-- C9: The flag list satisfies the audit invariants: it has exactly one
flag per breaching producing record, in chronological order
(positionally the emitted flags carry the breaching records' report
months in sequence); every breaching record strictly breaches the
threshold and is not shut in; `flag_id` values are the consecutive
integers counted from 1 over the emitted flags; and when no producing
record breaches, the result is the empty list. -/
theorem governance_flag_invariants (fiscal : List FiscalRecord) (thr : ℚ) :
    (run_governance_audit fiscal thr).length = (breachingRecords fiscal thr).length ∧
    (∀ r ∈ breachingRecords fiscal thr, thr < |r.variance_pct| ∧ r.is_shut_in = false) ∧
    (∀ i : ℕ, ((run_governance_audit fiscal thr)[i]?).map GovernanceFlag.report_month =
      ((breachingRecords fiscal thr)[i]?).map FiscalRecord.report_month) ∧
    (∀ (i : ℕ) (f : GovernanceFlag), (run_governance_audit fiscal thr)[i]? = some f →
      f.flag_id = i + 1) ∧
    ((∀ r ∈ producingRecords fiscal, |r.variance_pct| ≤ thr) →
      run_governance_audit fiscal thr = []) := by
  refine ⟨length_flags_eq fiscal thr, ?_, ?_, ?_, ?_⟩
  · intro r hr
    rw [breachingRecords] at hr
    obtain ⟨hprod, hbr⟩ := List.mem_filter.mp hr
    rw [producingRecords] at hprod
    obtain ⟨-, hshut⟩ := List.mem_filter.mp hprod
    refine ⟨?_, ?_⟩
    · simpa [breaching] using hbr
    · simpa using hshut
  · intro i
    rw [getElem?_flags, getElem?_breachingRecords]
    cases h : (breachingRows fiscal thr)[i]? with
    | none => rfl
    | some p => simp [mkGovernanceFlag]
  · intro i f hf
    rw [getElem?_flags] at hf
    cases h : (breachingRows fiscal thr)[i]? with
    | none => rw [h] at hf; simp at hf
    | some p =>
      rw [h] at hf
      simp only [Option.map_some', Option.some.injEq] at hf
      subst hf
      simp only [mkGovernanceFlag]
      omega
  · intro hall
    have hrows : breachingRows fiscal thr = [] := by
      rw [breachingRows, List.filter_eq_nil_iff]
      intro q hq
      obtain ⟨a, c⟩ := q
      have hmem := (List.of_mem_zip hq).1
      have hle := hall a hmem
      simp only [breaching, decide_eq_true_eq]
      exact fun hcon => absurd hle (not_le.mpr hcon)
    rw [run_governance_audit, hrows]
    rfl

/-- Witness for C9 at a concrete input. -/
theorem governance_flag_invariants_witness :
    (run_governance_audit [exampleFiscal, breachExampleRecord] 15).length =
      (breachingRecords [exampleFiscal, breachExampleRecord] 15).length :=
  (governance_flag_invariants [exampleFiscal, breachExampleRecord] 15).1

/-- C10: Every emitted flag stores rounded copies of the underlying
breaching record's values — quantities and variance rounded to 1
decimal place, variance percentage and revenue exposure to 2 — and
consequently a stored `variance_pct` can equal the threshold even
though the unrounded value strictly exceeded it: an unrounded breach of
15.004 percent against a 15 percent threshold is stored as exactly 15. -/
theorem governance_flag_rounding (fiscal : List FiscalRecord) (thr : ℚ) :
    (∀ (i : ℕ) (f : GovernanceFlag), (run_governance_audit fiscal thr)[i]? = some f →
      ∃ r : FiscalRecord, (breachingRecords fiscal thr)[i]? = some r ∧
        f.actual_boe = round_dp 1 r.actual_boe ∧
        f.forecast_boe = round_dp 1 r.forecast_boe ∧
        f.variance_boe = round_dp 1 r.variance_boe ∧
        f.variance_pct = round_dp 2 r.variance_pct ∧
        f.revenue_exposure_gbp = round_dp 2 r.revenue_exposure_gbp) ∧
    ((run_governance_audit [roundingExampleRecord] 15).map GovernanceFlag.variance_pct =
        [15] ∧
      15 < |roundingExampleRecord.variance_pct|) := by
  constructor
  · intro i f hf
    rw [getElem?_flags] at hf
    cases h : (breachingRows fiscal thr)[i]? with
    | none => rw [h] at hf; simp at hf
    | some p =>
      rw [h] at hf
      simp only [Option.map_some', Option.some.injEq] at hf
      subst hf
      refine ⟨p.1, ?_, ?_, ?_, ?_, ?_, ?_⟩
      · rw [getElem?_breachingRecords, h]; rfl
      all_goals simp [mkGovernanceFlag]
  · constructor
    · have hshut : roundingExampleRecord.is_shut_in = false := rfl
      have hb : breaching 15 roundingExampleRecord = true := by
        simp only [breaching, decide_eq_true_eq]
        rw [show roundingExampleRecord.variance_pct = 15004 / 1000 from rfl, abs_of_pos] <;>
          norm_num
      have hpct : round_dp 2 roundingExampleRecord.variance_pct = 15 := by
        rw [show roundingExampleRecord.variance_pct = 15004 / 1000 from rfl, round_dp,
          round_eq]
        rw [show ((15004 : ℚ) / 1000 * 10 ^ 2 + 1 / 2) = 15009 / 10 by norm_num]
        rw [show ⌊(15009 : ℚ) / 10⌋ = 1500 by
          rw [Int.floor_eq_iff] <;> norm_num]
        norm_num
      simp only [run_governance_audit, breachingRows, auditMask, producingRecords,
        List.filter_cons, List.filter_nil, hshut, Bool.not_false, if_true, List.map_cons,
        List.map_nil, hb, consecutiveRuns, consecutiveRunsAux, List.zip_cons_cons,
        List.zip_nil_right, enumerateFlags, mkGovernanceFlag]
      simp [hpct]
    · rw [show roundingExampleRecord.variance_pct = 15004 / 1000 from rfl, abs_of_pos] <;>
        norm_num

/-- Witness for C10 at a concrete input. -/
theorem governance_flag_rounding_witness :
    15 < |roundingExampleRecord.variance_pct| :=
  (governance_flag_rounding [] 0).2.2

/-- C3: In the fiscal sequence, every record's `revenue_exposure_gbp` is
exactly `0` when the record is shut in (regardless of its variance) and
`variance × price` otherwise, and its `cumulative_exposure_gbp` is the
running sum, in chronological order, of `revenue_exposure_gbp` over all
records up to and including that position (shut-in records contribute 0
but are not skipped). -/
theorem fiscal_impact_exposure (recon : List ReconRecord) (price : ℚ) (i : ℕ)
    (r : ReconRecord) (h : recon[i]? = some r) :
    ∃ f : FiscalRecord, (calculate_fiscal_impact recon price)[i]? = some f ∧
      f.revenue_exposure_gbp = (if r.is_shut_in = true then 0 else r.variance_boe * price) ∧
      f.cumulative_exposure_gbp =
        (((calculate_fiscal_impact recon price).take (i + 1)).map
          FiscalRecord.revenue_exposure_gbp).sum := by
  refine ⟨_, getElem?_calculate_fiscal_impact recon price i r h, ?_, ?_⟩
  · rfl
  · show (0 : ℚ) + ((recon.map (exposureOf price)).take (i + 1)).sum = _
    rw [zero_add, List.map_take, map_revenue_fiscal]

/-- Witness for C3 at a concrete input. -/
theorem fiscal_impact_exposure_witness :
    ∃ f : FiscalRecord, (calculate_fiscal_impact [exampleRecon] 10)[0]? = some f ∧
      f.revenue_exposure_gbp =
        (if exampleRecon.is_shut_in = true then 0 else exampleRecon.variance_boe * 10) ∧
      f.cumulative_exposure_gbp =
        (((calculate_fiscal_impact [exampleRecon] 10).take (0 + 1)).map
          FiscalRecord.revenue_exposure_gbp).sum :=
  fiscal_impact_exposure [exampleRecon] 10 0 exampleRecon rfl

/-- C4 counterexample: `calculate_fiscal_impact` performs no validation
of the price. At the non-positive price `-1` it does not fail: it
returns a fully computed fiscal sequence (here with
`revenue_exposure = variance × (-1) = -100`). -/
theorem fiscal_impact_accepts_nonpositive_price :
    calculate_fiscal_impact [exampleRecon] (-1) =
      [fiscalRecordOf (-1) exampleRecon (-100, -100)] := by
  show List.zipWith _ _ _ = _
  rw [show [exampleRecon].map (exposureOf (-1)) = [-100] from by
    simp only [List.map_cons, List.map_nil, exposureOf]
    norm_num [exampleRecon]]
  rw [show cumsum [(-100 : ℚ)] = [-100] from by
    simp only [cumsum, cumsumAux]
    norm_num]
  rfl

/-- C4 (amended): for every reconciliation sequence and every
`price_per_unit ≤ 0`, `calculate_fiscal_impact` does not reject the
input: it returns a fiscal sequence of the same length whose records
carry the exposure computed with that non-positive price and the price
tag itself. -/
theorem fiscal_impact_nonpositive_price_behaviour (recon : List ReconRecord) (price : ℚ)
    (hprice : price ≤ 0) :
    (calculate_fiscal_impact recon price).length = recon.length ∧
    ∀ (i : ℕ) (r : ReconRecord), recon[i]? = some r →
      ∃ f : FiscalRecord, (calculate_fiscal_impact recon price)[i]? = some f ∧
        f.revenue_exposure_gbp =
          (if r.is_shut_in = true then 0 else r.variance_boe * price) ∧
        f.price_per_barrel_gbp = price := by
  constructor
  · simp [calculate_fiscal_impact, List.length_zipWith, List.length_zip, cumsum,
      length_cumsumAux]
  · intro i r h
    exact ⟨_, getElem?_calculate_fiscal_impact recon price i r h, rfl, rfl⟩

/-- Witness for C4 (amended) at a concrete input with price `-1 ≤ 0`. -/
theorem fiscal_impact_nonpositive_price_witness :
    (calculate_fiscal_impact [exampleRecon] (-1)).length = [exampleRecon].length ∧
    ∀ (i : ℕ) (r : ReconRecord), [exampleRecon][i]? = some r →
      ∃ f : FiscalRecord, (calculate_fiscal_impact [exampleRecon] (-1))[i]? = some f ∧
        f.revenue_exposure_gbp =
          (if r.is_shut_in = true then 0 else r.variance_boe * (-1)) ∧
        f.price_per_barrel_gbp = -1 :=
  fiscal_impact_nonpositive_price_behaviour [exampleRecon] (-1) (by norm_num)

/-- C5 counterexample: `run_governance_audit` performs no validation of
the threshold. At the non-positive threshold `-1` it does not fail: it
returns a non-empty flag list (the zero-variance producing record
breaches a negative threshold). -/
theorem governance_accepts_nonpositive_threshold :
    (run_governance_audit [exampleFiscal] (-1)).length = 1 := by
  have hb : breaching (-1) exampleFiscal = true := by
    simp only [breaching, decide_eq_true_eq]
    rw [show exampleFiscal.variance_pct = 0 from rfl]
    norm_num
  simp only [run_governance_audit, breachingRows, auditMask, producingRecords,
    List.filter_cons, List.filter_nil, show exampleFiscal.is_shut_in = false from rfl,
    Bool.not_false, if_true, List.map_cons, List.map_nil, hb, consecutiveRuns,
    consecutiveRunsAux, List.zip_cons_cons, List.zip_nil_right, enumerateFlags]
  rfl

/-- C5 (amended): for every fiscal sequence and every
`threshold_pct ≤ 0`, `run_governance_audit` does not reject the input:
it returns the flag list computed by the usual rules (one flag per
breaching producing record), and for a strictly negative threshold
every producing record breaches, so a flag is emitted for each one. -/
theorem governance_nonpositive_threshold_behaviour (fiscal : List FiscalRecord) (thr : ℚ)
    (hthr : thr ≤ 0) :
    (run_governance_audit fiscal thr).length = (breachingRecords fiscal thr).length ∧
    (thr < 0 → (run_governance_audit fiscal thr).length = (producingRecords fiscal).length) := by
  refine ⟨length_flags_eq fiscal thr, ?_⟩
  intro hneg
  rw [length_flags_eq, breachingRecords_of_neg fiscal thr hneg]

/-- Witness for C5 (amended) at a concrete input with threshold `-1 ≤ 0`. -/
theorem governance_nonpositive_threshold_witness :
    (run_governance_audit [exampleFiscal] (-1)).length =
      (breachingRecords [exampleFiscal] (-1)).length ∧
    ((-1 : ℚ) < 0 → (run_governance_audit [exampleFiscal] (-1)).length =
      (producingRecords [exampleFiscal]).length) :=
  governance_nonpositive_threshold_behaviour [exampleFiscal] (-1) (by norm_num)

/-- C6: The fit first restricts the input series to producing months
(values strictly greater than 0); it proceeds to the fit exactly when
at least 3 producing observations remain, fails with the
insufficient-data error when fewer remain — in particular a series with
exactly 2 non-zero months fails before any fitting is attempted, and
one with exactly 3 proceeds to the fit on the filtered data. -/
theorem fit_decline_curve_data_guard (series : List ℚ) :
    ((∃ v, fit_decline_curve_check series = Except.ok v) ↔
      3 ≤ series.countP (fun q => decide (0 < q))) ∧
    (series.countP (fun q => decide (0 < q)) = 2 →
      fit_decline_curve_check series = Except.error insufficientDataMessage) ∧
    (series.countP (fun q => decide (0 < q)) = 3 →
      fit_decline_curve_check series = Except.ok (fit_decline_curve_inputs series)) := by
  have hlen := length_fit_inputs series
  refine ⟨?_, ?_, ?_⟩
  · rw [fit_decline_curve_check]
    by_cases hc : (fit_decline_curve_inputs series).length < 3
    · rw [if_pos hc]
      simp only [reduceCtorEq, exists_false, false_iff]
      omega
    · rw [if_neg hc]
      constructor
      · intro; omega
      · intro; exact ⟨_, rfl⟩
  · intro h2
    rw [fit_decline_curve_check, if_pos (by omega)]
  · intro h3
    rw [fit_decline_curve_check, if_neg (by omega)]

/-- Witness for C6 at concrete inputs: a synthetic series with exactly
2 non-zero months fails the fit guard, one with exactly 3 passes it. -/
theorem fit_decline_curve_data_guard_witness :
    fit_decline_curve_check [10, 8, 0] = Except.error insufficientDataMessage ∧
    fit_decline_curve_check [10, 8, 6] = Except.ok (fit_decline_curve_inputs [10, 8, 6]) :=
  ⟨(fit_decline_curve_data_guard [10, 8, 0]).2.1 (by
      rw [show ([10, 8, 0] : List ℚ).countP (fun q => decide (0 < q)) =
        ([10, 8, 0] : List ℚ).countP (fun q => decide (0 < q)) from rfl]
      simp only [List.countP_cons, List.countP_nil]
      norm_num),
   (fit_decline_curve_data_guard [10, 8, 6]).2.2 (by
      simp only [List.countP_cons, List.countP_nil]
      norm_num)⟩

/-- C7: Every reconciliation record satisfies `variance = actual −
forecast`, and `variance_pct = 100 × variance / forecast` when the
forecast is positive and exactly `0` otherwise (guarded division, never
undefined). -/
theorem reconciliation_record_fields (cleaned : List CleanedRecord) (forecast : ℕ → ℚ)
    (i : ℕ) (c : CleanedRecord) (h : cleaned[i]? = some c) :
    ∃ r : ReconRecord, (build_reconciliation_table cleaned forecast)[i]? = some r ∧
      r.actual_boe = c.total_boe ∧
      r.forecast_boe = forecast i ∧
      r.variance_boe = r.actual_boe - r.forecast_boe ∧
      r.variance_pct =
        (if 0 < r.forecast_boe then 100 * r.variance_boe / r.forecast_boe else 0) := by
  have hb := getElem?_build_reconciliation_aux forecast 0 i cleaned c h
  refine ⟨reconRecordOf forecast (0 + i) c, hb, rfl, ?_, rfl, ?_⟩
  · simp [reconRecordOf]
  · simp only [reconRecordOf]
    by_cases hf : 0 < forecast (0 + i)
    · rw [if_pos hf, if_pos hf]
      ring
    · rw [if_neg hf, if_neg hf]

/-- Witness for C7 at a concrete input. -/
theorem reconciliation_record_fields_witness :
    ∃ r : ReconRecord,
      (build_reconciliation_table [exampleCleaned] (fun _ => 1000))[0]? = some r ∧
      r.actual_boe = exampleCleaned.total_boe ∧
      r.forecast_boe = 1000 ∧
      r.variance_boe = r.actual_boe - r.forecast_boe ∧
      r.variance_pct =
        (if 0 < r.forecast_boe then 100 * r.variance_boe / r.forecast_boe else 0) :=
  reconciliation_record_fields [exampleCleaned] (fun _ => 1000) 0 exampleCleaned rfl

/-- C8 counterexample: as stated — quantified over every `qi` — the
monotonicity conjunct is false of the code's forecast function: with
`qi = -1`, `di = 1 > 0` and integer offsets `t1 = 0 ≤ t2 = 1`, the
forecast strictly increases. -/
theorem arps_not_monotone_for_negative_qi :
    arps_exponential ((0 : ℤ) : ℝ) (-1) 1 < arps_exponential ((1 : ℤ) : ℝ) (-1) 1 := by
  rw [arps_exponential, arps_exponential]
  have h1 : Real.exp (-1 * ((1 : ℤ) : ℝ)) < 1 := by
    rw [show (-1 : ℝ) * ((1 : ℤ) : ℝ) = -1 by push_cast; ring]
    calc Real.exp (-1) < Real.exp 0 := Real.exp_lt_exp.mpr (by norm_num)
    _ = 1 := Real.exp_zero
  have h0 : Real.exp (-1 * ((0 : ℤ) : ℝ)) = 1 := by
    rw [show (-1 : ℝ) * ((0 : ℤ) : ℝ) = 0 by push_cast; ring]
    exact Real.exp_zero
  rw [h0]
  linarith

/-- C8 (amended): the forecast function computes `qi × exp(−di × t)`;
its value at `t = 0` equals `qi` exactly for every `qi` and `di`; for
every `qi ≥ 0` its value is non-negative at every `t`; and for every
`qi ≥ 0` and `di > 0` it is monotonically non-increasing over integer
offsets `t1 ≤ t2`. -/
theorem arps_exponential_spec (qi di : ℝ) :
    arps_exponential 0 qi di = qi ∧
    (0 ≤ qi → ∀ t : ℝ, 0 ≤ arps_exponential t qi di) ∧
    (0 ≤ qi → 0 < di → ∀ t1 t2 : ℤ, t1 ≤ t2 →
      arps_exponential ((t2 : ℤ) : ℝ) qi di ≤ arps_exponential ((t1 : ℤ) : ℝ) qi di) := by
  refine ⟨?_, ?_, ?_⟩
  · simp [arps_exponential]
  · intro hqi t
    exact mul_nonneg hqi (Real.exp_pos _).le
  · intro hqi hdi t1 t2 hle
    rw [arps_exponential, arps_exponential]
    apply mul_le_mul_of_nonneg_left _ hqi
    apply Real.exp_le_exp.mpr
    have hcast : (t1 : ℝ) ≤ (t2 : ℝ) := by exact_mod_cast hle
    have h2 : di * (t1 : ℝ) ≤ di * (t2 : ℝ) := mul_le_mul_of_nonneg_left hcast hdi.le
    linarith

/-- Witness for C8 (amended) at a concrete input. -/
theorem arps_exponential_spec_witness :
    arps_exponential 0 2 1 = 2 ∧
    0 ≤ arps_exponential 5 2 1 ∧
    arps_exponential ((1 : ℤ) : ℝ) 2 1 ≤ arps_exponential ((0 : ℤ) : ℝ) 2 1 :=
  ⟨(arps_exponential_spec 2 1).1,
   (arps_exponential_spec 2 1).2.1 (by norm_num) 5,
   (arps_exponential_spec 2 1).2.2 (by norm_num) (by norm_num) 0 1 (by norm_num)⟩

end DataAnalytic
